import Mathlib

/-!
Verification of the `interactive_functions` repository core: the seven
NumPy-vectorized curve functions (`power_law_decay`, `log_growth` and the
five dispersal kernels), the value-coercion helper `_value`, and the
`BaseFunction` capability (`__call__`, `math_str`, `params_str`).

Floating-point values are idealized: a float is either NaN, +inf, -inf or a
finite real number; finite arithmetic is exact (no rounding/overflow), while
the IEEE special-value propagation rules of the NumPy operations used by the
source (`exp`, `log`, `power`, `square`, `divide`, comparisons) are modelled
explicitly.  NumPy arrays are modelled as lists of such values.
-/

open Classical

/-- An idealized float64 value: NaN, an infinity, or a finite real. -/
inductive F where
  | nan : F
  | inf : F
  | ninf : F
  | fin : ℝ → F

/-- Holds exactly on finite values. -/
def F.isFinite : F → Prop
  | F.fin _ => True
  | _ => False

/-- Addition, with IEEE special-value rules (`inf + (-inf) = NaN`, NaN absorbs). -/
noncomputable def fadd : F → F → F
  | F.fin x, F.fin y => F.fin (x + y)
  | F.fin _, F.inf => F.inf
  | F.fin _, F.ninf => F.ninf
  | F.fin _, F.nan => F.nan
  | F.inf, F.fin _ => F.inf
  | F.inf, F.inf => F.inf
  | F.inf, F.ninf => F.nan
  | F.inf, F.nan => F.nan
  | F.ninf, F.fin _ => F.ninf
  | F.ninf, F.inf => F.nan
  | F.ninf, F.ninf => F.ninf
  | F.ninf, F.nan => F.nan
  | F.nan, _ => F.nan

/-- Multiplication, with IEEE special-value rules (`0 * inf = NaN`, NaN absorbs). -/
noncomputable def fmul : F → F → F
  | F.fin x, F.fin y => F.fin (x * y)
  | F.fin x, F.inf => if x = 0 then F.nan else if 0 < x then F.inf else F.ninf
  | F.fin x, F.ninf => if x = 0 then F.nan else if 0 < x then F.ninf else F.inf
  | F.fin _, F.nan => F.nan
  | F.inf, F.fin y => if y = 0 then F.nan else if 0 < y then F.inf else F.ninf
  | F.inf, F.inf => F.inf
  | F.inf, F.ninf => F.ninf
  | F.inf, F.nan => F.nan
  | F.ninf, F.fin y => if y = 0 then F.nan else if 0 < y then F.ninf else F.inf
  | F.ninf, F.inf => F.ninf
  | F.ninf, F.ninf => F.inf
  | F.ninf, F.nan => F.nan
  | F.nan, _ => F.nan

/-- Negation. -/
noncomputable def fneg : F → F
  | F.nan => F.nan
  | F.inf => F.ninf
  | F.ninf => F.inf
  | F.fin x => F.fin (-x)

/-- Division, with IEEE special-value rules (finite/0 gives a signed infinity,
0/0 and inf/inf give NaN, NaN absorbs; signed zeros are not modelled). -/
noncomputable def fdiv : F → F → F
  | F.nan, _ => F.nan
  | F.fin _, F.nan => F.nan
  | F.inf, F.nan => F.nan
  | F.ninf, F.nan => F.nan
  | F.inf, F.inf => F.nan
  | F.inf, F.ninf => F.nan
  | F.ninf, F.inf => F.nan
  | F.ninf, F.ninf => F.nan
  | F.inf, F.fin y => if 0 ≤ y then F.inf else F.ninf
  | F.ninf, F.fin y => if 0 ≤ y then F.ninf else F.inf
  | F.fin _, F.inf => F.fin 0
  | F.fin _, F.ninf => F.fin 0
  | F.fin x, F.fin y =>
      if y = 0 then (if x = 0 then F.nan else if 0 < x then F.inf else F.ninf)
      else F.fin (x / y)

/-- Model of `np.exp`, elementwise core: `exp(NaN) = NaN`, `exp(-inf) = 0`, `exp(inf) = inf`. -/
noncomputable def fexp : F → F
  | F.nan => F.nan
  | F.inf => F.inf
  | F.ninf => F.fin 0
  | F.fin x => F.fin (Real.exp x)

/-- Model of `np.log`, elementwise core: `log` of a negative value or NaN is NaN,
`log 0 = -inf`, `log inf = inf`. -/
noncomputable def flog : F → F
  | F.nan => F.nan
  | F.inf => F.inf
  | F.ninf => F.nan
  | F.fin x => if 0 < x then F.fin (Real.log x) else if x = 0 then F.ninf else F.nan

/-- Model of `np.square`, elementwise core. -/
noncomputable def fsquare : F → F
  | F.nan => F.nan
  | F.inf => F.inf
  | F.ninf => F.inf
  | F.fin x => F.fin (x * x)

/-- The exponent `e` is an odd integer. -/
def isOddInt (e : ℝ) : Prop := ∃ n : ℤ, Odd n ∧ (n : ℝ) = e

/-- IEEE `pow` on a finite base `b` with a finite exponent `e` (as used by
`np.power` on float64): `pow(b, 0) = 1`; for `b > 0` the real power
`exp(e * log b)`; `pow(0, e)` is `0` for `e > 0` and `+inf` for `e < 0`;
for `b < 0` the result is the integer power when `e` is an integer and NaN
otherwise. -/
noncomputable def fpowFin (b e : ℝ) : F :=
  if e = 0 then F.fin 1
  else if 0 < b then F.fin (b ^ e)
  else if b = 0 then (if 0 < e then F.fin 0 else F.inf)
  else if h : ∃ n : ℤ, (n : ℝ) = e then F.fin (b ^ h.choose) else F.nan

/-- Model of `np.power` with an array base and a finite scalar exponent (the only form
the source uses): IEEE `pow` special cases for NaN and infinite bases, and
`fpowFin` on finite bases. -/
noncomputable def fpowS (x : F) (e : ℝ) : F :=
  match x with
  | F.nan => if e = 0 then F.fin 1 else F.nan
  | F.inf => if e = 0 then F.fin 1 else if 0 < e then F.inf else F.fin 0
  | F.ninf =>
      if e = 0 then F.fin 1
      else if isOddInt e then (if 0 < e then F.ninf else F.fin 0)
      else (if 0 < e then F.inf else F.fin 0)
  | F.fin b => fpowFin b e

/-- The NumPy comparison `v > 0.0` (False on NaN, True on `+inf`). -/
def fgt0 : F → Prop
  | F.nan => False
  | F.inf => True
  | F.ninf => False
  | F.fin x => 0 < x

/-- The NumPy comparison `v != 0.0` (True on NaN and on infinities). -/
def fne0 : F → Prop
  | F.fin x => x ≠ 0
  | _ => True

/-- Translation of `_full_nan_like` from `dispersal_kernels.py`: an all-NaN array of the
shape of `x`. -/
noncomputable def _full_nan_like (x : List F) : List F :=
  x.map fun _ => F.nan

/-- Translation of `kernel_exponential` from `dispersal_kernels.py`:
`K(r) = exp(-r / lam)`, all-NaN when `lam <= 0`. -/
noncomputable def kernel_exponential (distance : List F) (lam : ℝ) : List F :=
  if lam ≤ 0 then _full_nan_like distance
  else distance.map fun r => fexp (fdiv (fneg r) (F.fin lam))

/-- Translation of `kernel_gaussian` from `dispersal_kernels.py`:
`K(r) = exp(-(r / sigma)^2)`, all-NaN when `sigma <= 0`. -/
noncomputable def kernel_gaussian (distance : List F) (sigma : ℝ) : List F :=
  if sigma ≤ 0 then _full_nan_like distance
  else distance.map fun r => fexp (fneg (fsquare (fdiv r (F.fin sigma))))

/-- Translation of `kernel_powerlaw` from `dispersal_kernels.py`:
`K(r) = (1 + r/alpha)^(-p)`, all-NaN when `alpha <= 0` or `p <= 0`,
per-position NaN where `1 + r/alpha` is not `> 0`. -/
noncomputable def kernel_powerlaw (distance : List F) (alpha p : ℝ) : List F :=
  if alpha ≤ 0 ∨ p ≤ 0 then _full_nan_like distance
  else
    let base := distance.map fun r => fadd (F.fin 1) (fdiv r (F.fin alpha))
    let y := base.map fun b => fpowS b (-p)
    List.zipWith (fun b yv => if fgt0 b then yv else F.nan) base y

/-- Translation of `kernel_rectangular_hyperbola` from `dispersal_kernels.py`:
`K(r) = 1 / (1 + (r/alpha)^p)`, all-NaN when `alpha <= 0` or `p <= 0`.
The division is performed through `np.divide(..., out=np.empty_like(ratio),
where=denom != 0)`: positions where `denom = 0` keep the uninitialized
contents of the output buffer, modelled by the explicit `junk` argument;
the final `np.where(denom > 0, y, nan)` then replaces every position whose
denominator is not `> 0` with NaN. -/
noncomputable def kernel_rectangular_hyperbola (junk : F) (distance : List F)
    (alpha p : ℝ) : List F :=
  if alpha ≤ 0 ∨ p ≤ 0 then _full_nan_like distance
  else
    let ratio := distance.map fun r => fdiv r (F.fin alpha)
    let denom := ratio.map fun t => fadd (F.fin 1) (fpowS t p)
    let y := denom.map fun d => if fne0 d then fdiv (F.fin 1) d else junk
    List.zipWith (fun d yv => if fgt0 d then yv else F.nan) denom y

/-- Translation of `kernel_exppower` from `dispersal_kernels.py`:
`K(r) = exp(-(r / lam)^q)`, all-NaN when `lam <= 0` or `q <= 0`. -/
noncomputable def kernel_exppower (distance : List F) (lam q : ℝ) : List F :=
  if lam ≤ 0 ∨ q ≤ 0 then _full_nan_like distance
  else distance.map fun r => fexp (fneg (fpowS (fdiv r (F.fin lam)) q))

/-- Translation of `power_law_decay` from `power_law_decay.py`:
`y = a * (x + b)^(-p)` where `x + b > 0`, NaN elsewhere. -/
noncomputable def power_law_decay (x : List F) (a p b : ℝ) : List F :=
  let domain := x.map fun xv => fadd xv (F.fin b)
  let y := domain.map fun d => fmul (F.fin a) (fpowS d (-p))
  List.zipWith (fun d yv => if fgt0 d then yv else F.nan) domain y

/-- Translation of `log_growth` from `log_growth.py`:
`y = a * ln(x + b)` where `x + b > 0`, NaN elsewhere. -/
noncomputable def log_growth (x : List F) (a b : ℝ) : List F :=
  let domain := x.map fun xv => fadd xv (F.fin b)
  let y := domain.map fun d => fmul (F.fin a) (flog d)
  List.zipWith (fun d yv => if fgt0 d then yv else F.nan) domain y

/-- A Python value as `_value` in `base.py` sees it: a number (anything
`float(...)` accepts), an object exposing a number through its `.value`
attribute (a widget-like holder; `tn` is its type name), or any other
object (`tn` is its type name). -/
inductive PyVal where
  | num : ℚ → PyVal
  | withValue : PyVal → String → PyVal
  | nonNum : String → PyVal
deriving DecidableEq

/-- The type of `v` rendered as a name, as interpolated into the error message of
`_value`. -/
def typeName : PyVal → String
  | PyVal.num _ => "float"
  | PyVal.withValue _ tn => tn
  | PyVal.nonNum tn => tn

/-- Model of getattr with a default: the `.value` attribute when present, else `v`. -/
def rawOf : PyVal → PyVal
  | PyVal.withValue inner _ => inner
  | v => v

/-- The `TypeError` raised by `_value`, carrying the name of the offending type. -/
structure TypeConversionError where
  tn : String
deriving DecidableEq

/-- Translation of `_value` from `base.py`: extract a numeric value from a plain number or a
widget-like holder; raise a `TypeError` naming `type(v)` otherwise. -/
def _value (v : PyVal) : Except TypeConversionError ℚ :=
  match rawOf v with
  | PyVal.num q => Except.ok q
  | _ => Except.error ⟨typeName v⟩

/-- Predicate: `v` can be reduced to numeric form by `_value`: it is a number or a
widget-like holder of one. -/
def reducibleVal (v : PyVal) : Prop := ∃ q, rawOf v = PyVal.num q

/-- Predicate: `v` is a plain number. -/
def isNum (v : PyVal) : Prop := ∃ q, v = PyVal.num q

/-- One cell of `np.asarray(x, dtype=float)`: a plain number converts, any
object (widget-like or not) raises naming its type. -/
noncomputable def asarrayCell : PyVal → Except TypeConversionError F
  | PyVal.num q => Except.ok (F.fin (q : ℝ))
  | PyVal.withValue _ tn => Except.error ⟨tn⟩
  | PyVal.nonNum tn => Except.error ⟨tn⟩

/-- Sequential effectful map, stopping at the first failure — the behaviour
of a Python loop or comprehension that may raise. -/
def mapME (f : α → Except ε β) : List α → Except ε (List β)
  | [] => Except.ok []
  | a :: as =>
      match f a with
      | Except.error e => Except.error e
      | Except.ok b => (mapME f as).map (b :: ·)

/-- Round to the nearest integer, ties to even — the rounding used by
the fixed-point float formatting of Python. -/
def roundHalfEven (q : ℚ) : ℤ :=
  let f := ⌊q⌋
  let r := q - f
  if r < 1/2 then f else if 1/2 < r then f + 1 else if f % 2 = 0 then f else f + 1

/-- The decimal digits of `n`, most significant first. -/
def natDigits (n : ℕ) : List Char := Nat.toDigits 10 n

/-- The fixed-point formatting used by Python format strings, on an
(idealized, exact) value:
round `|val| * 10^precision` to the nearest integer (ties to even) and
render sign, integer part, and a `precision`-digit fraction. -/
def formatFixed (q : ℚ) (precision : ℕ) : String :=
  let n := (roundHalfEven (|q| * 10 ^ precision)).toNat
  let ip := n / 10 ^ precision
  let fp := n % 10 ^ precision
  let fracDigits := List.replicate (precision - (natDigits fp).length) '0' ++ natDigits fp
  String.mk ((if q < 0 then ['-'] else []) ++ natDigits ip ++
    (if precision = 0 then [] else ['.'] ++ fracDigits))

/-- The data `BaseFunction` in `base.py` requires of a subclass: the
`parameters` mapping (name to bound value, in declared order), the
`MATH_TEMPLATE` class variable, and the standalone curve function `fn`
(taking the coerced input array and the coerced parameter values in
declared order). -/
structure PBF where
  parameters : List (String × PyVal)
  MATH_TEMPLATE : String
  curve : List F → List ℝ → List F

/-- Translation of the `__call__` method of `BaseFunction` in `base.py`: coerce every bound parameter with
`_value`, then evaluate `fn` on `x` (which `fn` first converts with
`np.asarray(x, dtype=float)`). -/
noncomputable def pbfCall (b : PBF) (xs : List PyVal) :
    Except TypeConversionError (List F) :=
  match mapME (fun kv => _value kv.2) b.parameters with
  | Except.error e => Except.error e
  | Except.ok ps =>
      match mapME asarrayCell xs with
      | Except.error e => Except.error e
      | Except.ok xr => Except.ok (b.curve xr (ps.map fun q => (q : ℝ)))

/-- Translation of the `math_str` method of `BaseFunction` in `base.py`: the symbolic template, unchanged. -/
def math_str (b : PBF) : String := b.MATH_TEMPLATE

/-- Translation of the `params_str` method of `BaseFunction` in `base.py`:
coerce each bound parameter, render it as name=value with fixed precision,
and join with `sep`. -/
def params_str (b : PBF) (precision : ℕ) (sep : String) :
    Except TypeConversionError String :=
  (mapME (fun kv => (_value kv.2).map fun q => kv.1 ++ "=" ++ formatFixed q precision)
    b.parameters).map (String.intercalate sep)

/-- The `ExponentialKernel` dataclass (field `lam`, default `10.0`). -/
structure ExponentialKernel where
  lam : PyVal

/-- The `MATH_TEMPLATE` class variable of `ExponentialKernel`. -/
def ExponentialKernel.MATH_TEMPLATE : String :=
  "$K(r) = \\exp\\!\\left(-\\dfrac\x7br\x7d\x7b\\lambda\x7d\\right)$"

/-- The `parameters`, `MATH_TEMPLATE` and `fn` of `ExponentialKernel`. -/
noncomputable def ExponentialKernel.toPBF (k : ExponentialKernel) : PBF where
  parameters := [("lam", k.lam)]
  MATH_TEMPLATE := ExponentialKernel.MATH_TEMPLATE
  curve := fun xs ps => kernel_exponential xs (ps.getD 0 0)

/-- The `GaussianKernel` dataclass (field `sigma`, default `10.0`). -/
structure GaussianKernel where
  sigma : PyVal

/-- The `MATH_TEMPLATE` class variable of `GaussianKernel`. -/
def GaussianKernel.MATH_TEMPLATE : String :=
  "$K(r) = \\exp\\!\\left(-\\left(\\dfrac\x7br\x7d\x7b\\sigma\x7d\\right)^2\\right)$"

/-- The `parameters`, `MATH_TEMPLATE` and `fn` of `GaussianKernel`. -/
noncomputable def GaussianKernel.toPBF (k : GaussianKernel) : PBF where
  parameters := [("sigma", k.sigma)]
  MATH_TEMPLATE := GaussianKernel.MATH_TEMPLATE
  curve := fun xs ps => kernel_gaussian xs (ps.getD 0 0)

/-- The `PowerLawKernel` dataclass (fields `alpha`, `p`). -/
structure PowerLawKernel where
  alpha : PyVal
  p : PyVal

/-- The `MATH_TEMPLATE` class variable of `PowerLawKernel`. -/
def PowerLawKernel.MATH_TEMPLATE : String :=
  "$K(r) = \\left(1 + \\dfrac\x7br\x7d\x7b\\alpha\x7d\\right)^\x7b-p\x7d$"

/-- The `parameters`, `MATH_TEMPLATE` and `fn` of `PowerLawKernel`. -/
noncomputable def PowerLawKernel.toPBF (k : PowerLawKernel) : PBF where
  parameters := [("alpha", k.alpha), ("p", k.p)]
  MATH_TEMPLATE := PowerLawKernel.MATH_TEMPLATE
  curve := fun xs ps => kernel_powerlaw xs (ps.getD 0 0) (ps.getD 1 0)

/-- The `ExpPowerKernel` dataclass (fields `lam`, `q`). -/
structure ExpPowerKernel where
  lam : PyVal
  q : PyVal

/-- The `MATH_TEMPLATE` class variable of `ExpPowerKernel`. -/
def ExpPowerKernel.MATH_TEMPLATE : String :=
  "$K(r) = \\exp\\!\\left(-\\left(\\dfrac\x7br\x7d\x7b\\lambda\x7d\\right)^\x7bq\x7d\\right)$"

/-- The `parameters`, `MATH_TEMPLATE` and `fn` of `ExpPowerKernel`. -/
noncomputable def ExpPowerKernel.toPBF (k : ExpPowerKernel) : PBF where
  parameters := [("lam", k.lam), ("q", k.q)]
  MATH_TEMPLATE := ExpPowerKernel.MATH_TEMPLATE
  curve := fun xs ps => kernel_exppower xs (ps.getD 0 0) (ps.getD 1 0)

/-- The `RectangularHyperbolaKernel` dataclass (fields `alpha`, `p`).  The
uninitialized `np.empty_like` buffer contents are modelled adversarially as
`+inf`. -/
structure RectangularHyperbolaKernel where
  alpha : PyVal
  p : PyVal

/-- The `MATH_TEMPLATE` class variable of `RectangularHyperbolaKernel`. -/
def RectangularHyperbolaKernel.MATH_TEMPLATE : String :=
  "$K(r) = \\dfrac\x7b1\x7d\x7b1 + \\left(\\dfrac\x7br\x7d\x7b\\alpha\x7d\\right)^\x7bp\x7d\x7d$"

/-- The `parameters`, `MATH_TEMPLATE` and `fn` of `RectangularHyperbolaKernel`. -/
noncomputable def RectangularHyperbolaKernel.toPBF (k : RectangularHyperbolaKernel) : PBF where
  parameters := [("alpha", k.alpha), ("p", k.p)]
  MATH_TEMPLATE := RectangularHyperbolaKernel.MATH_TEMPLATE
  curve := fun xs ps => kernel_rectangular_hyperbola F.inf xs (ps.getD 0 0) (ps.getD 1 0)

/-- The `PowerLawDecay` dataclass (fields `a`, `p`, `b`). -/
structure PowerLawDecay where
  a : PyVal
  p : PyVal
  b : PyVal

/-- The `MATH_TEMPLATE` class variable of `PowerLawDecay`. -/
def PowerLawDecay.MATH_TEMPLATE : String :=
  "$f(x) = a \\\\cdot (x + b)^\x7b-p\x7d$"

/-- The `parameters`, `MATH_TEMPLATE` and `fn` of `PowerLawDecay` (the raw
raw string contains a literal double backslash). -/
noncomputable def PowerLawDecay.toPBF (k : PowerLawDecay) : PBF where
  parameters := [("a", k.a), ("p", k.p), ("b", k.b)]
  MATH_TEMPLATE := PowerLawDecay.MATH_TEMPLATE
  curve := fun xs ps => power_law_decay xs (ps.getD 0 0) (ps.getD 1 0) (ps.getD 2 0)

/-- The `LogGrowth` dataclass (fields `a`, `b`). -/
structure LogGrowth where
  a : PyVal
  b : PyVal

/-- The `MATH_TEMPLATE` class variable of `LogGrowth`. -/
def LogGrowth.MATH_TEMPLATE : String :=
  "$f(x) = a \\\\cdot \\\\ln(x + b)$"

/-- The `parameters`, `MATH_TEMPLATE` and `fn` of `LogGrowth` (the raw
string contains a literal double backslash). -/
noncomputable def LogGrowth.toPBF (k : LogGrowth) : PBF where
  parameters := [("a", k.a), ("b", k.b)]
  MATH_TEMPLATE := LogGrowth.MATH_TEMPLATE
  curve := fun xs ps => log_growth xs (ps.getD 0 0) (ps.getD 1 0)

/-! ### Basic facts about the scalar float operations -/

@[simp] lemma fgt0_fin (x : ℝ) : fgt0 (F.fin x) = (0 < x) := rfl

@[simp] lemma fgt0_nan : fgt0 F.nan = False := rfl

@[simp] lemma fadd_fin_fin (x y : ℝ) : fadd (F.fin x) (F.fin y) = F.fin (x + y) := rfl

@[simp] lemma fadd_fin_nan (x : ℝ) : fadd (F.fin x) F.nan = F.nan := rfl

@[simp] lemma fadd_nan (v : F) : fadd F.nan v = F.nan := rfl

@[simp] lemma fmul_fin_fin (x y : ℝ) : fmul (F.fin x) (F.fin y) = F.fin (x * y) := rfl

@[simp] lemma fmul_fin_nan (x : ℝ) : fmul (F.fin x) F.nan = F.nan := rfl

@[simp] lemma fneg_fin (x : ℝ) : fneg (F.fin x) = F.fin (-x) := rfl

@[simp] lemma fneg_nan : fneg F.nan = F.nan := rfl

@[simp] lemma fexp_fin (x : ℝ) : fexp (F.fin x) = F.fin (Real.exp x) := rfl

@[simp] lemma fexp_nan : fexp F.nan = F.nan := rfl

@[simp] lemma fsquare_nan : fsquare F.nan = F.nan := rfl

@[simp] lemma fsquare_fin (x : ℝ) : fsquare (F.fin x) = F.fin (x * x) := rfl

@[simp] lemma flog_nan : flog F.nan = F.nan := rfl

@[simp] lemma fdiv_nan_left (v : F) : fdiv F.nan v = F.nan := rfl

lemma fdiv_fin_fin (x y : ℝ) (hy : y ≠ 0) :
    fdiv (F.fin x) (F.fin y) = F.fin (x / y) := by
  simp [fdiv, hy]

lemma fpowS_nan (e : ℝ) (he : e ≠ 0) : fpowS F.nan e = F.nan := by
  simp [fpowS, he]

lemma fpowFin_of_pos {b : ℝ} (e : ℝ) (hb : 0 < b) : fpowFin b e = F.fin (b ^ e) := by
  rcases eq_or_ne e 0 with he | he
  · simp [fpowFin, he]
  · simp [fpowFin, he, hb]

lemma fpowS_fin_of_pos {b : ℝ} (e : ℝ) (hb : 0 < b) :
    fpowS (F.fin b) e = F.fin (b ^ e) := by
  simp [fpowS, fpowFin_of_pos e hb]

@[simp] lemma F_nan_ne_fin (x : ℝ) : (F.nan = F.fin x) = False := by simp

@[simp] lemma F_fin_ne_nan (x : ℝ) : (F.fin x = F.nan) = False := by simp

@[simp] lemma F_isFinite_fin (x : ℝ) : F.isFinite (F.fin x) := trivial

/-! ### Structural list lemmas -/

lemma zipWith_map_same (g : β → γ → δ) (f₁ : α → β) (f₂ : α → γ) (l : List α) :
    List.zipWith g (l.map f₁) (l.map f₂) = l.map fun x => g (f₁ x) (f₂ x) := by
  induction l with
  | nil => rfl
  | cons a t ih => simp [ih]

lemma getD_map_of_lt (f : α → β) (l : List α) (i : ℕ) (h : i < l.length)
    (d : β) (d0 : α) : (l.map f).getD i d = f (l.getD i d0) := by
  induction l generalizing i with
  | nil => simp at h
  | cons a t ih =>
      cases i with
      | zero => rfl
      | succ n => simpa using ih n (by simpa using h)

@[simp] lemma length_full_nan_like (x : List F) :
    (_full_nan_like x).length = x.length := by
  simp [_full_nan_like]

/-! ### Closed forms of the curve functions as elementwise maps -/

lemma kernel_exponential_of_pos {lam : ℝ} (xs : List F) (h : 0 < lam) :
    kernel_exponential xs lam = xs.map fun r => fexp (fdiv (fneg r) (F.fin lam)) := by
  rw [kernel_exponential, if_neg (not_le.mpr h)]

lemma kernel_gaussian_of_pos {sigma : ℝ} (xs : List F) (h : 0 < sigma) :
    kernel_gaussian xs sigma
      = xs.map fun r => fexp (fneg (fsquare (fdiv r (F.fin sigma)))) := by
  rw [kernel_gaussian, if_neg (not_le.mpr h)]

lemma kernel_exppower_of_pos {lam q : ℝ} (xs : List F) (hl : 0 < lam) (hq : 0 < q) :
    kernel_exppower xs lam q
      = xs.map fun r => fexp (fneg (fpowS (fdiv r (F.fin lam)) q)) := by
  rw [kernel_exppower,
    if_neg (by push_neg; exact ⟨hl, hq⟩ : ¬ (lam ≤ 0 ∨ q ≤ 0))]

lemma kernel_powerlaw_of_pos {alpha p : ℝ} (xs : List F) (ha : 0 < alpha) (hp : 0 < p) :
    kernel_powerlaw xs alpha p = xs.map fun r =>
      let b := fadd (F.fin 1) (fdiv r (F.fin alpha))
      if fgt0 b then fpowS b (-p) else F.nan := by
  rw [kernel_powerlaw,
    if_neg (by push_neg; exact ⟨ha, hp⟩ : ¬ (alpha ≤ 0 ∨ p ≤ 0))]
  simp only [List.map_map]
  rw [zipWith_map_same]
  rfl

lemma kernel_rectangular_hyperbola_of_pos {alpha p : ℝ} (junk : F) (xs : List F)
    (ha : 0 < alpha) (hp : 0 < p) :
    kernel_rectangular_hyperbola junk xs alpha p = xs.map fun r =>
      let d := fadd (F.fin 1) (fpowS (fdiv r (F.fin alpha)) p)
      if fgt0 d then (if fne0 d then fdiv (F.fin 1) d else junk) else F.nan := by
  rw [kernel_rectangular_hyperbola,
    if_neg (by push_neg; exact ⟨ha, hp⟩ : ¬ (alpha ≤ 0 ∨ p ≤ 0))]
  simp only [List.map_map]
  rw [zipWith_map_same]
  rfl

lemma power_law_decay_eq_map (xs : List F) (a p b : ℝ) :
    power_law_decay xs a p b = xs.map fun xv =>
      let d := fadd xv (F.fin b)
      if fgt0 d then fmul (F.fin a) (fpowS d (-p)) else F.nan := by
  rw [power_law_decay]
  simp only [List.map_map]
  rw [zipWith_map_same]
  rfl

lemma log_growth_eq_map (xs : List F) (a b : ℝ) :
    log_growth xs a b = xs.map fun xv =>
      let d := fadd xv (F.fin b)
      if fgt0 d then fmul (F.fin a) (flog d) else F.nan := by
  rw [log_growth]
  simp only [List.map_map]
  rw [zipWith_map_same]
  rfl

/-! ### C1 -/

/-- C1: for every dispersal kernel, if any of its required scale/shape
parameters (`lam`, `sigma`, `alpha`/`p`, `lam`/`q` respectively) is `≤ 0`,
evaluating the kernel on any input array returns an array of the same shape
whose every element is NaN, regardless of the input values. -/
theorem kernels_param_guard_all_nan :
    (∀ (xs : List F) (lam : ℝ), lam ≤ 0 →
        kernel_exponential xs lam = xs.map fun _ => F.nan) ∧
    (∀ (xs : List F) (sigma : ℝ), sigma ≤ 0 →
        kernel_gaussian xs sigma = xs.map fun _ => F.nan) ∧
    (∀ (xs : List F) (alpha p : ℝ), alpha ≤ 0 ∨ p ≤ 0 →
        kernel_powerlaw xs alpha p = xs.map fun _ => F.nan) ∧
    (∀ (junk : F) (xs : List F) (alpha p : ℝ), alpha ≤ 0 ∨ p ≤ 0 →
        kernel_rectangular_hyperbola junk xs alpha p = xs.map fun _ => F.nan) ∧
    (∀ (xs : List F) (lam q : ℝ), lam ≤ 0 ∨ q ≤ 0 →
        kernel_exppower xs lam q = xs.map fun _ => F.nan) := by
  refine ⟨fun xs lam h => ?_, fun xs sigma h => ?_, fun xs alpha p h => ?_,
    fun junk xs alpha p h => ?_, fun xs lam q h => ?_⟩ <;>
    simp [kernel_exponential, kernel_gaussian, kernel_powerlaw,
      kernel_rectangular_hyperbola, kernel_exppower, _full_nan_like, h]

/-- C1 witness: each kernel evaluated at a concrete non-positive parameter
and concrete inputs (including 0 and a negative value) is entirely NaN. -/
theorem kernels_param_guard_all_nan_witness :
    kernel_exponential [F.fin 1, F.fin (-1), F.fin 0] 0 = [F.nan, F.nan, F.nan] ∧
    kernel_gaussian [F.fin 2] 0 = [F.nan] ∧
    kernel_powerlaw [F.fin 3] (-1) 2 = [F.nan] ∧
    kernel_rectangular_hyperbola F.inf [F.fin 3] 1 0 = [F.nan] ∧
    kernel_exppower [F.fin 3] 0 2 = [F.nan] := by
  refine ⟨?_, ?_, ?_, ?_, ?_⟩
  · simpa using kernels_param_guard_all_nan.1 [F.fin 1, F.fin (-1), F.fin 0] 0 le_rfl
  · simpa using kernels_param_guard_all_nan.2.1 [F.fin 2] 0 le_rfl
  · simpa using kernels_param_guard_all_nan.2.2.1 [F.fin 3] (-1) 2
      (Or.inl (by norm_num))
  · simpa using kernels_param_guard_all_nan.2.2.2.1 F.inf [F.fin 3] 1 0
      (Or.inr le_rfl)
  · simpa using kernels_param_guard_all_nan.2.2.2.2 [F.fin 3] 0 2
      (Or.inl le_rfl)

/-! ### C5 -/

/-- C5: every one of the seven curve functions returns an array of the same
shape (length) as its input, for every parameter set, valid or not. -/
theorem curves_preserve_shape :
    (∀ (xs : List F) (lam : ℝ), (kernel_exponential xs lam).length = xs.length) ∧
    (∀ (xs : List F) (sigma : ℝ), (kernel_gaussian xs sigma).length = xs.length) ∧
    (∀ (xs : List F) (alpha p : ℝ), (kernel_powerlaw xs alpha p).length = xs.length) ∧
    (∀ (junk : F) (xs : List F) (alpha p : ℝ),
        (kernel_rectangular_hyperbola junk xs alpha p).length = xs.length) ∧
    (∀ (xs : List F) (lam q : ℝ), (kernel_exppower xs lam q).length = xs.length) ∧
    (∀ (xs : List F) (a p b : ℝ), (power_law_decay xs a p b).length = xs.length) ∧
    (∀ (xs : List F) (a b : ℝ), (log_growth xs a b).length = xs.length) := by
  refine ⟨fun xs lam => ?_, fun xs sigma => ?_, fun xs alpha p => ?_,
    fun junk xs alpha p => ?_, fun xs lam q => ?_, fun xs a p b => ?_, fun xs a b => ?_⟩
  · rw [kernel_exponential]; split <;> simp
  · rw [kernel_gaussian]; split <;> simp
  · rw [kernel_powerlaw]; split
    · simp
    · simp only [List.map_map]; rw [zipWith_map_same]; simp
  · rw [kernel_rectangular_hyperbola]; split
    · simp
    · simp only [List.map_map]; rw [zipWith_map_same]; simp
  · rw [kernel_exppower]; split <;> simp
  · rw [power_law_decay_eq_map]; simp
  · rw [log_growth_eq_map]; simp

/-! ### C2 -/

lemma flog_fin_of_pos {x : ℝ} (h : 0 < x) : flog (F.fin x) = F.fin (Real.log x) := by
  simp [flog, h]

/-- C2: for `power_law_decay(x, a, p, b)` and `log_growth(x, a, b)` with
finite parameters, the output at a position is NaN exactly when `x + b ≤ 0`
at that position, and finite at every position where `x + b > 0`. -/
theorem decay_growth_elementwise_domain :
    ∀ (xs : List ℝ) (a p b : ℝ) (i : ℕ), i < xs.length →
      (((power_law_decay (xs.map F.fin) a p b).getD i F.inf = F.nan
          ↔ xs.getD i 0 + b ≤ 0) ∧
       (0 < xs.getD i 0 + b →
          F.isFinite ((power_law_decay (xs.map F.fin) a p b).getD i F.inf)) ∧
       ((log_growth (xs.map F.fin) a b).getD i F.inf = F.nan
          ↔ xs.getD i 0 + b ≤ 0) ∧
       (0 < xs.getD i 0 + b →
          F.isFinite ((log_growth (xs.map F.fin) a b).getD i F.inf))) := by
  intro xs a p b i hi
  rw [power_law_decay_eq_map, log_growth_eq_map]
  simp only [List.map_map]
  rw [getD_map_of_lt _ xs i hi F.inf 0, getD_map_of_lt _ xs i hi F.inf 0]
  set x := xs.getD i 0 with hx
  simp only [Function.comp_apply, fadd_fin_fin, fgt0_fin]
  by_cases hd : 0 < x + b
  · rw [if_pos hd, if_pos hd, fpowS_fin_of_pos (-p) hd, flog_fin_of_pos hd]
    simp [not_le.mpr hd]
  · rw [if_neg hd, if_neg hd]
    simp [not_lt.mp hd, hd]

/-- C2 witness: at `a = p = 1`, `b = 0`, input `[1, -2]`, position 0
(`x + b = 1 > 0`) is finite and position 1 (`x + b = -2 ≤ 0`) is NaN,
for both curves. -/
theorem decay_growth_elementwise_domain_witness :
    F.isFinite ((power_law_decay ([(1:ℝ), -2].map F.fin) 1 1 0).getD 0 F.inf) ∧
    (power_law_decay ([(1:ℝ), -2].map F.fin) 1 1 0).getD 1 F.inf = F.nan ∧
    F.isFinite ((log_growth ([(1:ℝ), -2].map F.fin) 1 0).getD 0 F.inf) ∧
    (log_growth ([(1:ℝ), -2].map F.fin) 1 0).getD 1 F.inf = F.nan := by
  refine ⟨(decay_growth_elementwise_domain [1, -2] 1 1 0 0 (by norm_num)).2.1 ?_,
    ((decay_growth_elementwise_domain [1, -2] 1 1 0 1 (by norm_num)).1).mpr ?_,
    (decay_growth_elementwise_domain [1, -2] 1 1 0 0 (by norm_num)).2.2.2 ?_,
    ((decay_growth_elementwise_domain [1, -2] 1 1 0 1 (by norm_num)).2.2.1).mpr ?_⟩
  all_goals norm_num [List.getD]

/-! ### C6 -/

lemma not_isOddInt_two : ¬ isOddInt 2 := by
  rintro ⟨n, hodd, hcast⟩
  have hn : n = 2 := by exact_mod_cast hcast
  rw [hn] at hodd
  exact (by decide : ¬ Odd (2 : ℤ)) hodd

lemma fpowS_two (t : F) : fpowS t 2 = fsquare t := by
  cases t with
  | nan => norm_num [fpowS, fsquare]
  | inf => norm_num [fpowS, fsquare]
  | ninf => norm_num [fpowS, fsquare, not_isOddInt_two]
  | fin b =>
      show fpowFin b 2 = F.fin (b * b)
      rcases lt_trichotomy b 0 with hb | hb | hb
      · have hex : ∃ n : ℤ, (n : ℝ) = 2 := ⟨2, by norm_num⟩
        rw [fpowFin, if_neg (by norm_num), if_neg (not_lt.mpr hb.le),
          if_neg hb.ne, dif_pos hex]
        have hch : hex.choose = 2 := by exact_mod_cast hex.choose_spec
        rw [hch]
        norm_num [zpow_two]
      · subst hb; norm_num [fpowFin]
      · rw [fpowFin_of_pos 2 hb]
        rw [show ((2:ℝ)) = ((2:ℕ) : ℝ) by norm_num, Real.rpow_natCast]
        norm_num [pow_two]

/-- C6: for every scale `L > 0` and every input array, the exponential-power
kernel with `q = 2` agrees with the Gaussian kernel with `sigma = L` —
elementwise and exactly, in the idealized real semantics (hence within any
numeric tolerance). -/
theorem exppower_q2_matches_gaussian :
    ∀ (L : ℝ), 0 < L → ∀ xs : List F,
      kernel_exppower xs L 2 = kernel_gaussian xs L := by
  intro L hL xs
  rw [kernel_exppower_of_pos xs hL (by norm_num), kernel_gaussian_of_pos xs hL]
  exact List.map_congr_left fun r _ => by rw [fpowS_two]

/-- C6 witness: at `L = 1` and input `[0]` the two kernels agree. -/
theorem exppower_q2_matches_gaussian_witness :
    kernel_exppower [F.fin 0] 1 2 = kernel_gaussian [F.fin 0] 1 :=
  exppower_q2_matches_gaussian 1 one_pos [F.fin 0]

/-! ### C4 -/

lemma fne0_of_fgt0 {d : F} (h : fgt0 d) : fne0 d := by
  cases d with
  | fin x => exact ne_of_gt h
  | nan => exact trivial
  | inf => exact trivial
  | ninf => exact trivial

/-- C4: for the rectangular-hyperbola kernel with `alpha > 0` and `p > 0`,
the output is independent of the contents of the uninitialized buffer that
`np.divide(..., where=denom != 0)` leaves at positions where the denominator
is zero (the division is computed only where the denominator is nonzero),
and at every position whose denominator `1 + (r/alpha)^p` is not `> 0`
(including exactly zero) the output is NaN — never `inf`. -/
theorem rect_hyperbola_division_guard :
    ∀ (junk junk' : F) (xs : List F) (alpha p : ℝ), 0 < alpha → 0 < p →
      kernel_rectangular_hyperbola junk xs alpha p
          = kernel_rectangular_hyperbola junk' xs alpha p ∧
      ∀ i, i < xs.length →
        ¬ fgt0 (fadd (F.fin 1) (fpowS (fdiv (xs.getD i F.nan) (F.fin alpha)) p)) →
        (kernel_rectangular_hyperbola junk xs alpha p).getD i F.inf = F.nan := by
  intro junk junk' xs alpha p ha hp
  constructor
  · rw [kernel_rectangular_hyperbola_of_pos junk xs ha hp,
      kernel_rectangular_hyperbola_of_pos junk' xs ha hp]
    refine List.map_congr_left fun r _ => ?_
    by_cases hg : fgt0 (fadd (F.fin 1) (fpowS (fdiv r (F.fin alpha)) p))
    · simp only [if_pos hg, if_pos (fne0_of_fgt0 hg)]
    · simp only [if_neg hg]
  · intro i hi hng
    rw [kernel_rectangular_hyperbola_of_pos junk xs ha hp,
      getD_map_of_lt _ xs i hi F.inf F.nan]
    simp only [if_neg hng]

/-- C4 witness: with `alpha = p = 1` and a NaN input position, the
denominator is NaN (not `> 0`), the output there is NaN, and the output does
not depend on the uninitialized buffer contents (`inf` vs `7.0`). -/
theorem rect_hyperbola_division_guard_witness :
    kernel_rectangular_hyperbola F.inf [F.nan] 1 1
        = kernel_rectangular_hyperbola (F.fin 7) [F.nan] 1 1 ∧
    (kernel_rectangular_hyperbola F.inf [F.nan] 1 1).getD 0 F.inf = F.nan := by
  obtain ⟨h1, h2⟩ :=
    rect_hyperbola_division_guard F.inf (F.fin 7) [F.nan] 1 1 one_pos one_pos
  refine ⟨h1, h2 0 (by norm_num) ?_⟩
  rw [show (List.getD [F.nan] 0 F.nan) = F.nan from rfl, fdiv_nan_left,
    fpowS_nan 1 (by norm_num), fadd_fin_nan]
  simp

/-! ### C9 -/

/-- C9: for every one of the seven curve functions, whenever the global
parameter guard (if any) passes, a NaN at an input position yields NaN at
the corresponding output position. -/
theorem curves_propagate_nan :
    (∀ (xs : List F) (lam : ℝ), 0 < lam → ∀ i, i < xs.length →
        xs.getD i F.inf = F.nan →
        (kernel_exponential xs lam).getD i F.inf = F.nan) ∧
    (∀ (xs : List F) (sigma : ℝ), 0 < sigma → ∀ i, i < xs.length →
        xs.getD i F.inf = F.nan →
        (kernel_gaussian xs sigma).getD i F.inf = F.nan) ∧
    (∀ (xs : List F) (alpha p : ℝ), 0 < alpha → 0 < p → ∀ i, i < xs.length →
        xs.getD i F.inf = F.nan →
        (kernel_powerlaw xs alpha p).getD i F.inf = F.nan) ∧
    (∀ (junk : F) (xs : List F) (alpha p : ℝ), 0 < alpha → 0 < p →
        ∀ i, i < xs.length → xs.getD i F.inf = F.nan →
        (kernel_rectangular_hyperbola junk xs alpha p).getD i F.inf = F.nan) ∧
    (∀ (xs : List F) (lam q : ℝ), 0 < lam → 0 < q → ∀ i, i < xs.length →
        xs.getD i F.inf = F.nan →
        (kernel_exppower xs lam q).getD i F.inf = F.nan) ∧
    (∀ (xs : List F) (a p b : ℝ), ∀ i, i < xs.length →
        xs.getD i F.inf = F.nan →
        (power_law_decay xs a p b).getD i F.inf = F.nan) ∧
    (∀ (xs : List F) (a b : ℝ), ∀ i, i < xs.length →
        xs.getD i F.inf = F.nan →
        (log_growth xs a b).getD i F.inf = F.nan) := by
  refine ⟨fun xs lam hl i hi hnan => ?_, fun xs sigma hs i hi hnan => ?_,
    fun xs alpha p ha hp i hi hnan => ?_, fun junk xs alpha p ha hp i hi hnan => ?_,
    fun xs lam q hl hq i hi hnan => ?_, fun xs a p b i hi hnan => ?_,
    fun xs a b i hi hnan => ?_⟩
  · rw [kernel_exponential_of_pos xs hl, getD_map_of_lt _ xs i hi F.inf F.inf, hnan]
    simp [fdiv]
  · rw [kernel_gaussian_of_pos xs hs, getD_map_of_lt _ xs i hi F.inf F.inf, hnan]
    simp [fdiv]
  · rw [kernel_powerlaw_of_pos xs ha hp, getD_map_of_lt _ xs i hi F.inf F.inf, hnan]
    simp [fdiv]
  · rw [kernel_rectangular_hyperbola_of_pos junk xs ha hp,
      getD_map_of_lt _ xs i hi F.inf F.inf, hnan]
    simp [fdiv, fpowS_nan p hp.ne.symm]
  · rw [kernel_exppower_of_pos xs hl hq, getD_map_of_lt _ xs i hi F.inf F.inf, hnan]
    simp [fdiv, fpowS_nan q hq.ne.symm]
  · rw [power_law_decay_eq_map, getD_map_of_lt _ xs i hi F.inf F.inf, hnan]
    simp
  · rw [log_growth_eq_map, getD_map_of_lt _ xs i hi F.inf F.inf, hnan]
    simp

/-- C9 witness: each curve evaluated with valid parameters on the input
`[NaN]` yields NaN at position 0. -/
theorem curves_propagate_nan_witness :
    (kernel_exponential [F.nan] 1).getD 0 F.inf = F.nan ∧
    (kernel_gaussian [F.nan] 1).getD 0 F.inf = F.nan ∧
    (kernel_powerlaw [F.nan] 1 1).getD 0 F.inf = F.nan ∧
    (kernel_rectangular_hyperbola F.inf [F.nan] 1 1).getD 0 F.inf = F.nan ∧
    (kernel_exppower [F.nan] 1 1).getD 0 F.inf = F.nan ∧
    (power_law_decay [F.nan] 1 1 0).getD 0 F.inf = F.nan ∧
    (log_growth [F.nan] 1 0).getD 0 F.inf = F.nan :=
  ⟨curves_propagate_nan.1 [F.nan] 1 one_pos 0 (by norm_num) rfl,
   curves_propagate_nan.2.1 [F.nan] 1 one_pos 0 (by norm_num) rfl,
   curves_propagate_nan.2.2.1 [F.nan] 1 1 one_pos one_pos 0 (by norm_num) rfl,
   curves_propagate_nan.2.2.2.1 F.inf [F.nan] 1 1 one_pos one_pos 0 (by norm_num) rfl,
   curves_propagate_nan.2.2.2.2.1 [F.nan] 1 1 one_pos one_pos 0 (by norm_num) rfl,
   curves_propagate_nan.2.2.2.2.2.1 [F.nan] 1 1 0 0 (by norm_num) rfl,
   curves_propagate_nan.2.2.2.2.2.2 [F.nan] 1 0 0 (by norm_num) rfl⟩

/-! ### Coercion and rendering facts -/

lemma isNum_reducible {v : PyVal} (h : isNum v) : reducibleVal v := by
  obtain ⟨q, rfl⟩ := h
  exact ⟨q, rfl⟩

lemma _value_error_elim {v : PyVal} {e : TypeConversionError}
    (h : _value v = Except.error e) : ¬ reducibleVal v ∧ e = ⟨typeName v⟩ := by
  unfold _value at h
  cases hr : rawOf v with
  | num q => rw [hr] at h; exact absurd h (by simp)
  | withValue inner tn =>
      rw [hr] at h
      refine ⟨fun hred => ?_, by cases h; rfl⟩
      obtain ⟨q, hq⟩ := hred
      rw [hr] at hq
      cases hq
  | nonNum tn =>
      rw [hr] at h
      refine ⟨fun hred => ?_, by cases h; rfl⟩
      obtain ⟨q, hq⟩ := hred
      rw [hr] at hq
      cases hq

lemma _value_ok_elim {v : PyVal} {q : ℚ} (h : _value v = Except.ok q) :
    reducibleVal v := by
  unfold _value at h
  cases hr : rawOf v with
  | num q2 => exact ⟨q2, hr⟩
  | withValue inner tn => rw [hr] at h; cases h
  | nonNum tn => rw [hr] at h; cases h

lemma asarrayCell_error_elim {v : PyVal} {e : TypeConversionError}
    (h : asarrayCell v = Except.error e) : ¬ isNum v ∧ e = ⟨typeName v⟩ := by
  cases v with
  | num q => exact absurd h (by simp [asarrayCell])
  | withValue inner tn =>
      refine ⟨fun hn => ?_, ?_⟩
      · obtain ⟨q, hq⟩ := hn; cases hq
      · simp only [asarrayCell] at h
        cases h; rfl
  | nonNum tn =>
      refine ⟨fun hn => ?_, ?_⟩
      · obtain ⟨q, hq⟩ := hn; cases hq
      · simp only [asarrayCell] at h
        cases h; rfl

lemma asarrayCell_ok_elim {v : PyVal} {y : F} (h : asarrayCell v = Except.ok y) :
    isNum v := by
  cases v with
  | num q => exact ⟨q, rfl⟩
  | withValue inner tn => simp [asarrayCell] at h
  | nonNum tn => simp [asarrayCell] at h

lemma mapME_cases (f : α → Except ε β) (l : List α) :
    (∃ ys, mapME f l = Except.ok ys ∧ ∀ x ∈ l, ∃ y, f x = Except.ok y) ∨
    (∃ x ∈ l, ∃ e, f x = Except.error e ∧ mapME f l = Except.error e) := by
  induction l with
  | nil => exact Or.inl ⟨[], rfl, by simp⟩
  | cons a t ih =>
      cases hfa : f a with
      | error e =>
          exact Or.inr ⟨a, by simp, e, hfa, by simp [mapME, hfa]⟩
      | ok b =>
          rcases ih with ⟨ys, hok, hall⟩ | ⟨x, hx, e, hfx, herr⟩
          · refine Or.inl ⟨b :: ys, by simp [mapME, hfa, hok, Except.map], ?_⟩
            intro x hx
            rcases List.mem_cons.mp hx with rfl | hx
            · exact ⟨b, hfa⟩
            · exact hall x hx
          · exact Or.inr ⟨x, by simp [hx], e, hfx,
              by simp [mapME, hfa, herr, Except.map]⟩

lemma mapME_map_error (f : α → Except ε β) (h : α → β → γ) (l : List α) (e : ε)
    (he : mapME f l = Except.error e) :
    mapME (fun a => (f a).map (h a)) l = Except.error e := by
  induction l with
  | nil => exact absurd he (by simp [mapME])
  | cons a t ih =>
      cases hfa : f a with
      | error e2 =>
          simp only [mapME, hfa] at he
          cases he
          simp [mapME, hfa, Except.map]
      | ok b =>
          simp only [mapME, hfa] at he
          have ht : mapME f t = Except.error e := by
            cases hmt : mapME f t with
            | error e3 =>
                rw [hmt] at he
                simp only [Except.map] at he
                cases he; rfl
            | ok ys =>
                rw [hmt] at he
                simp only [Except.map] at he
                exact absurd he (by simp)
          have ih2 := ih ht
          show (match (f a).map (h a) with
            | Except.error err => Except.error err
            | Except.ok b2 => (mapME (fun a => (f a).map (h a)) t).map (b2 :: ·))
              = Except.error e
          rw [hfa]
          simp only [Except.map] at ih2 ⊢
          rw [ih2]

/-! ### C3 -/

/-- C3: for every bound curve, `evaluate` fails with a type-conversion error
naming the offending type whenever a bound parameter (or an input element)
cannot be reduced to numeric form; the failure is an `Except.error`
propagated to the caller, never NaN output. -/
theorem evaluate_type_error :
    ∀ (b : PBF) (xs : List PyVal),
      ((∃ v ∈ b.parameters.map Prod.snd, ¬ reducibleVal v) ∨
        (∃ v ∈ xs, ¬ reducibleVal v)) →
      ∃ v, ((v ∈ b.parameters.map Prod.snd ∧ ¬ reducibleVal v) ∨
            (v ∈ xs ∧ ¬ isNum v)) ∧
        pbfCall b xs = Except.error ⟨typeName v⟩ := by
  intro b xs hbad
  rcases mapME_cases (fun kv => _value kv.2) b.parameters with
    ⟨ps, hok, hall⟩ | ⟨kv, hkv, e, hfe, herr⟩
  · have hparams_ok : ∀ v ∈ b.parameters.map Prod.snd, reducibleVal v := by
      intro v hv
      obtain ⟨kv, hkv, rfl⟩ := List.mem_map.mp hv
      obtain ⟨y, hy⟩ := hall kv hkv
      exact _value_ok_elim hy
    have hxs : ∃ v ∈ xs, ¬ reducibleVal v := by
      rcases hbad with ⟨v, hv, hnr⟩ | h
      · exact absurd (hparams_ok v hv) hnr
      · exact h
    rcases mapME_cases asarrayCell xs with ⟨ys, hok2, hall2⟩ | ⟨x, hx, e, hfx, herr2⟩
    · obtain ⟨v, hv, hnr⟩ := hxs
      obtain ⟨y, hy⟩ := hall2 v hv
      exact absurd (isNum_reducible (asarrayCell_ok_elim hy)) hnr
    · obtain ⟨hnn, rfl⟩ := asarrayCell_error_elim hfx
      refine ⟨x, Or.inr ⟨hx, hnn⟩, ?_⟩
      rw [pbfCall, hok, herr2]
  · obtain ⟨hnr, rfl⟩ := _value_error_elim hfe
    refine ⟨kv.2, Or.inl ⟨List.mem_map.mpr ⟨kv, hkv, rfl⟩, hnr⟩, ?_⟩
    rw [pbfCall, herr]

/-- C3 witness: an `ExponentialKernel` bound to a non-numeric `lam` (type
name `"list"`) fails with the error naming `"list"`, on the concrete input
`[0.0]`. -/
theorem evaluate_type_error_witness :
    pbfCall (ExponentialKernel.toPBF ⟨PyVal.nonNum ("list")⟩) [PyVal.num 0]
      = Except.error ⟨"list"⟩ := by
  obtain ⟨v, hv, herr⟩ :=
    evaluate_type_error (ExponentialKernel.toPBF ⟨PyVal.nonNum ("list")⟩)
      [PyVal.num 0]
      (Or.inl ⟨PyVal.nonNum ("list"), by simp [ExponentialKernel.toPBF],
        fun ⟨q, hq⟩ => by cases hq⟩)
  have hveq : v = PyVal.nonNum ("list") ∨ v = PyVal.num 0 := by
    rcases hv with ⟨hmem, _⟩ | ⟨hmem, _⟩
    · simp only [ExponentialKernel.toPBF, List.map_cons, List.map_nil,
        List.mem_singleton] at hmem
      exact Or.inl hmem
    · simp only [List.mem_singleton] at hmem
      exact Or.inr hmem
  rcases hveq with rfl | rfl
  · exact herr
  · rcases hv with ⟨_, hnr⟩ | ⟨_, hnn⟩
    · exact absurd ⟨0, rfl⟩ hnr
    · exact absurd ⟨0, rfl⟩ hnn

/-! ### C10 -/

/-- C10: `params_str`, like `evaluate`, coerces every bound parameter at call
time; if any bound parameter is neither a number nor a widget-like holder of
one, `params_str` fails with the same type-conversion error as `evaluate`
instead of returning a string. -/
theorem params_str_same_type_error :
    ∀ (b : PBF) (precision : ℕ) (sep : String) (xs : List PyVal),
      (∃ v ∈ b.parameters.map Prod.snd, ¬ reducibleVal v) →
      ∃ e, params_str b precision sep = Except.error e ∧
        pbfCall b xs = Except.error e := by
  intro b precision sep xs hbad
  rcases mapME_cases (fun kv => _value kv.2) b.parameters with
    ⟨ps, hok, hall⟩ | ⟨kv, hkv, e, hfe, herr⟩
  · obtain ⟨v, hv, hnr⟩ := hbad
    obtain ⟨kv, hkv, rfl⟩ := List.mem_map.mp hv
    obtain ⟨y, hy⟩ := hall kv hkv
    exact absurd (_value_ok_elim hy) hnr
  · refine ⟨e, ?_, ?_⟩
    · have hm := mapME_map_error (fun kv => _value kv.2)
        (fun kv q => kv.1 ++ "=" ++ formatFixed q precision) b.parameters e herr
      rw [params_str, hm]
      rfl
    · rw [pbfCall, herr]

/-- C10 witness: an `ExponentialKernel` bound to a non-numeric `lam` (type
name `"dict"`) makes `params_str` and `evaluate` fail with the same error. -/
theorem params_str_same_type_error_witness :
    params_str (ExponentialKernel.toPBF ⟨PyVal.nonNum ("dict")⟩) 2 ", "
        = Except.error ⟨"dict"⟩ ∧
    pbfCall (ExponentialKernel.toPBF ⟨PyVal.nonNum ("dict")⟩) []
        = Except.error ⟨"dict"⟩ := by
  obtain ⟨e, h1, h2⟩ :=
    params_str_same_type_error (ExponentialKernel.toPBF ⟨PyVal.nonNum ("dict")⟩)
      2 ", " []
      ⟨PyVal.nonNum ("dict"), by simp [ExponentialKernel.toPBF],
        fun hred => by obtain ⟨q, hq⟩ := hred; cases hq⟩
  have hcalc : params_str (ExponentialKernel.toPBF ⟨PyVal.nonNum ("dict")⟩) 2 ", "
      = Except.error ⟨"dict"⟩ := by
    simp [params_str, mapME, _value, rawOf, typeName, Except.map,
      ExponentialKernel.toPBF]
  have he : e = ⟨"dict"⟩ := by
    rw [hcalc] at h1
    cases h1
    rfl
  rw [he] at h1 h2
  exact ⟨h1, h2⟩

/-! ### C7 -/

lemma intercalate_single (s a : String) : String.intercalate s [a] = a := rfl

lemma intercalate_pair (s a b : String) : String.intercalate s [a, b] = a ++ s ++ b := rfl

lemma roundHalfEven_intCast (n : ℤ) : roundHalfEven (n : ℚ) = n := by
  simp [roundHalfEven]

lemma formatFixed_five_halves : formatFixed (5/2) 2 = "2.50" := by
  have h2 : (|(5:ℚ)/2| * 10 ^ 2) = ((250 : ℤ) : ℚ) := by
    rw [abs_of_nonneg (by norm_num)]
    norm_num
  have h : roundHalfEven (|(5:ℚ)/2| * 10 ^ 2) = 250 := by
    rw [h2, roundHalfEven_intCast]
  simp only [formatFixed, h]
  rw [if_neg (by norm_num : ¬ ((5:ℚ)/2 < 0))]
  rfl

/-- C7: `params_str(precision, sep)` renders each bound parameter as
`name=value` with the value fixed to `precision` decimal digits, joined by
`sep`, in the declared order of the parameter set; in particular an
`ExponentialKernel` bound to `lam = 2.5` yields `"lam=2.50"` at the default
precision 2 and default separator. -/
theorem params_str_renders_params :
    (∀ (av pv : ℚ) (precision : ℕ) (sep : String),
        params_str (PowerLawKernel.toPBF ⟨PyVal.num av, PyVal.num pv⟩) precision sep
          = Except.ok (("alpha" ++ "=" ++ formatFixed av precision) ++ sep ++
              ("p" ++ "=" ++ formatFixed pv precision))) ∧
    params_str (ExponentialKernel.toPBF ⟨PyVal.num (5/2)⟩) 2 ", "
      = Except.ok ("lam=2.50") := by
  constructor
  · intro av pv precision sep
    simp [params_str, mapME, _value, rawOf, Except.map, PowerLawKernel.toPBF,
      intercalate_pair]
  · simp [params_str, mapME, _value, rawOf, Except.map, ExponentialKernel.toPBF,
      intercalate_single, formatFixed_five_halves]

/-! ### C8 -/

/-- Relation: `a` occurs as a contiguous substring of `s`. -/
def Substr (a s : String) : Prop :=
  ∃ l r : List Char, s.data = l ++ a.data ++ r

lemma mem_data_of_Substr {a s : String} {c : Char} (h : Substr a s)
    (hc : c ∈ a.data) : c ∈ s.data := by
  obtain ⟨l, r, hs⟩ := h
  rw [hs]
  simp [hc]

lemma dot_mem_formatFixed (q : ℚ) {precision : ℕ} (h : 1 ≤ precision) :
    '.' ∈ (formatFixed q precision).data := by
  have hp : precision ≠ 0 := by omega
  simp [formatFixed, hp]

lemma no_dot_no_numeric {s : String} (hnd : ¬ '.' ∈ s.data) (q : ℚ)
    {precision : ℕ} (hp : 1 ≤ precision) : ¬ Substr (formatFixed q precision) s :=
  fun h => hnd (mem_data_of_Substr h (dot_mem_formatFixed q hp))

/-- C8: for any two instances of the same bound-curve variant, `math_str()`
returns the same fixed symbolic template, regardless of the bound parameter
values; and that template never contains a rendered numeric parameter value
(a fixed-point rendering with at least one decimal digit), only variable
names — the templates contain no `.` character at all. -/
theorem math_str_constant_no_values :
    (∀ k₁ k₂ : ExponentialKernel, math_str k₁.toPBF = math_str k₂.toPBF) ∧
    (∀ k₁ k₂ : GaussianKernel, math_str k₁.toPBF = math_str k₂.toPBF) ∧
    (∀ k₁ k₂ : PowerLawKernel, math_str k₁.toPBF = math_str k₂.toPBF) ∧
    (∀ k₁ k₂ : ExpPowerKernel, math_str k₁.toPBF = math_str k₂.toPBF) ∧
    (∀ k₁ k₂ : RectangularHyperbolaKernel, math_str k₁.toPBF = math_str k₂.toPBF) ∧
    (∀ k₁ k₂ : PowerLawDecay, math_str k₁.toPBF = math_str k₂.toPBF) ∧
    (∀ k₁ k₂ : LogGrowth, math_str k₁.toPBF = math_str k₂.toPBF) ∧
    (∀ (k : ExponentialKernel) (q : ℚ) (precision : ℕ), 1 ≤ precision →
        ¬ Substr (formatFixed q precision) (math_str k.toPBF)) ∧
    (∀ (k : GaussianKernel) (q : ℚ) (precision : ℕ), 1 ≤ precision →
        ¬ Substr (formatFixed q precision) (math_str k.toPBF)) ∧
    (∀ (k : PowerLawKernel) (q : ℚ) (precision : ℕ), 1 ≤ precision →
        ¬ Substr (formatFixed q precision) (math_str k.toPBF)) ∧
    (∀ (k : ExpPowerKernel) (q : ℚ) (precision : ℕ), 1 ≤ precision →
        ¬ Substr (formatFixed q precision) (math_str k.toPBF)) ∧
    (∀ (k : RectangularHyperbolaKernel) (q : ℚ) (precision : ℕ), 1 ≤ precision →
        ¬ Substr (formatFixed q precision) (math_str k.toPBF)) ∧
    (∀ (k : PowerLawDecay) (q : ℚ) (precision : ℕ), 1 ≤ precision →
        ¬ Substr (formatFixed q precision) (math_str k.toPBF)) ∧
    (∀ (k : LogGrowth) (q : ℚ) (precision : ℕ), 1 ≤ precision →
        ¬ Substr (formatFixed q precision) (math_str k.toPBF)) := by
  refine ⟨fun _ _ => rfl, fun _ _ => rfl, fun _ _ => rfl, fun _ _ => rfl,
    fun _ _ => rfl, fun _ _ => rfl, fun _ _ => rfl,
    fun k q precision hp =>
      no_dot_no_numeric (by decide : ¬ '.' ∈ ExponentialKernel.MATH_TEMPLATE.data) q hp,
    fun k q precision hp =>
      no_dot_no_numeric (by decide : ¬ '.' ∈ GaussianKernel.MATH_TEMPLATE.data) q hp,
    fun k q precision hp =>
      no_dot_no_numeric (by decide : ¬ '.' ∈ PowerLawKernel.MATH_TEMPLATE.data) q hp,
    fun k q precision hp =>
      no_dot_no_numeric (by decide : ¬ '.' ∈ ExpPowerKernel.MATH_TEMPLATE.data) q hp,
    fun k q precision hp =>
      no_dot_no_numeric (by decide : ¬ '.' ∈ RectangularHyperbolaKernel.MATH_TEMPLATE.data) q hp,
    fun k q precision hp =>
      no_dot_no_numeric (by decide : ¬ '.' ∈ PowerLawDecay.MATH_TEMPLATE.data) q hp,
    fun k q precision hp =>
      no_dot_no_numeric (by decide : ¬ '.' ∈ LogGrowth.MATH_TEMPLATE.data) q hp⟩

/-- C8 witness: two concrete `ExponentialKernel` instances with different
bound values have equal `math_str`, and no concrete rendering `formatFixed 0 1`
occurs in any of the seven templates (concrete instances). -/
theorem math_str_constant_no_values_witness :
    math_str (ExponentialKernel.toPBF ⟨PyVal.num 1⟩)
        = math_str (ExponentialKernel.toPBF ⟨PyVal.num 2⟩) ∧
    ¬ Substr (formatFixed 0 1) (math_str (ExponentialKernel.toPBF ⟨PyVal.num 0⟩)) ∧
    ¬ Substr (formatFixed 0 1) (math_str (GaussianKernel.toPBF ⟨PyVal.num 0⟩)) ∧
    ¬ Substr (formatFixed 0 1)
        (math_str (PowerLawKernel.toPBF ⟨PyVal.num 0, PyVal.num 0⟩)) ∧
    ¬ Substr (formatFixed 0 1)
        (math_str (ExpPowerKernel.toPBF ⟨PyVal.num 0, PyVal.num 0⟩)) ∧
    ¬ Substr (formatFixed 0 1)
        (math_str (RectangularHyperbolaKernel.toPBF ⟨PyVal.num 0, PyVal.num 0⟩)) ∧
    ¬ Substr (formatFixed 0 1)
        (math_str (PowerLawDecay.toPBF ⟨PyVal.num 0, PyVal.num 0, PyVal.num 0⟩)) ∧
    ¬ Substr (formatFixed 0 1)
        (math_str (LogGrowth.toPBF ⟨PyVal.num 0, PyVal.num 0⟩)) :=
  ⟨math_str_constant_no_values.1 ⟨PyVal.num 1⟩ ⟨PyVal.num 2⟩,
   math_str_constant_no_values.2.2.2.2.2.2.2.1 ⟨PyVal.num 0⟩ 0 1 le_rfl,
   math_str_constant_no_values.2.2.2.2.2.2.2.2.1 ⟨PyVal.num 0⟩ 0 1 le_rfl,
   math_str_constant_no_values.2.2.2.2.2.2.2.2.2.1 ⟨PyVal.num 0, PyVal.num 0⟩ 0 1 le_rfl,
   math_str_constant_no_values.2.2.2.2.2.2.2.2.2.2.1 ⟨PyVal.num 0, PyVal.num 0⟩ 0 1 le_rfl,
   math_str_constant_no_values.2.2.2.2.2.2.2.2.2.2.2.1 ⟨PyVal.num 0, PyVal.num 0⟩ 0 1 le_rfl,
   math_str_constant_no_values.2.2.2.2.2.2.2.2.2.2.2.2.1
     ⟨PyVal.num 0, PyVal.num 0, PyVal.num 0⟩ 0 1 le_rfl,
   math_str_constant_no_values.2.2.2.2.2.2.2.2.2.2.2.2.2
     ⟨PyVal.num 0, PyVal.num 0⟩ 0 1 le_rfl⟩
